import Mathlib

/-!
# Verification of `utils.go`

A shallow embedding of the helper routines of `utils.go` and theorems about them:

* `RandStringBytesMaskImprSrc`, the bit-cache random string generator;
* `compress` / `decompress` / `compressByte` / `decompressByte`, the wrappers around
  `compress/flate`;
* `GetLocalIP`, the address picker.

Go values are modelled as follows.  An `int` / `int64` is an `Int` or a `Nat` (the only
arithmetic on them is a decrement of a counter that never leaves `[-1, n]`, a mask and a right
shift of a non-negative value, so no overflow can occur).  The random source `src` is a
stream of values; the `k`-th call of `src.Int63()` returns `Int63 src k`.  A loop that may run
for ever is run with a bound on its number of iterations (fuel).  `make([]byte, n)` panics for
a negative `n` and for an `n` above the allocation limit `maxAlloc` of the run time.
-/

namespace Utils

/-! ## The random string generator -/

/-- The constant `letterBytes` (line 191). -/
def letterBytes : String := "abcdefghijklmnopqrstuvwxyzABCDEFGHIJKLMNOPQRSTUVWXYZ"

/-- The constant `letterIdxBits` (line 193): 6 bits to represent a letter index. -/
def letterIdxBits : Nat := 6

/-- The constant `letterIdxMask` (line 194): all 1-bits, as many as `letterIdxBits`. -/
def letterIdxMask : Nat := 1 <<< letterIdxBits - 1

/-- The constant `letterIdxMax` (line 195): number of letter indices fitting in 63 bits. -/
def letterIdxMax : Nat := 63 / letterIdxBits

/-- A random source: the stream of raw values behind `src`. -/
abbrev Source := Nat → Nat

/-- The value returned by the `k`-th call (counted from 0) of `src.Int63()`: a non-negative
63-bit integer. -/
def Int63 (src : Source) (k : Nat) : Nat := src k % 2 ^ 63

/-- The byte `letterBytes[idx]`, for `idx < len(letterBytes)`. -/
def letterAt (idx : Nat) : Char := letterBytes.data.getD idx (Char.ofNat 0)

/-- The variables of the loop of `RandStringBytesMaskImprSrc` (line 202), with the position
in the random source (`calls`: how many times `src.Int63()` has been called) and a count of
the loop iterations done (`examined`: how many 6-bit groups have been looked at). -/
structure LoopState where
  /-- the buffer `b` -/
  b : List Char
  /-- the output cursor `i` -/
  i : Int
  /-- the bit cache `cache` -/
  cache : Nat
  /-- the number of groups left in the cache, `remain` -/
  remain : Int
  /-- number of calls of `src.Int63()` so far -/
  calls : Nat
  /-- number of loop iterations so far -/
  examined : Nat
deriving DecidableEq, Repr

/-- The refill of lines 203-205: `if remain == 0 { cache, remain = src.Int63(), letterIdxMax }`. -/
def refill (src : Source) (st : LoopState) : LoopState :=
  if st.remain = 0 then
    { st with cache := Int63 src st.calls, remain := letterIdxMax, calls := st.calls + 1 }
  else st

/-- Lines 206-209: `if idx := int(cache & letterIdxMask); idx < len(letterBytes)
{ b[i] = letterBytes[idx]; i-- }`. -/
def emit (st : LoopState) : LoopState :=
  let idx := st.cache &&& letterIdxMask
  if idx < letterBytes.length then
    { st with b := st.b.set st.i.toNat (letterAt idx), i := st.i - 1 }
  else st

/-- Lines 210-211: `cache >>= letterIdxBits; remain--`. -/
def shift (st : LoopState) : LoopState :=
  { st with cache := st.cache >>> letterIdxBits, remain := st.remain - 1,
            examined := st.examined + 1 }

/-- One iteration of the loop body (lines 203-211). -/
def loopBody (src : Source) (st : LoopState) : LoopState :=
  shift (emit (refill src st))

/-- The loop `for ...; i >= 0; { body }` run for at most `fuel` iterations: `none` when the
condition `i >= 0` still holds after `fuel` iterations. -/
def loop (src : Source) : Nat → LoopState → Option LoopState
  | 0, st => if 0 ≤ st.i then none else some st
  | fuel + 1, st => if 0 ≤ st.i then loop src fuel (loopBody src st) else some st

/-- The state set up by `b := make([]byte, n)` and the loop's init statement
`i, cache, remain := n-1, src.Int63(), letterIdxMax`, for `n >= 0`. -/
def initState (src : Source) (n : Int) : LoopState :=
  { b := List.replicate n.toNat (Char.ofNat 0), i := n - 1, cache := Int63 src 0,
    remain := letterIdxMax, calls := 1, examined := 0 }

/-- What a call of `RandStringBytesMaskImprSrc` does. -/
inductive Outcome where
  /-- the call returned the string `s`, after `calls` calls of `src.Int63()` and `examined`
  loop iterations -/
  | returned (s : String) (calls examined : Nat)
  /-- a run-time panic -/
  | panicked
  /-- the loop was still running when the fuel ran out -/
  | running
deriving DecidableEq, Repr

/-- The allocation limit `maxAlloc` of the Go run time (`runtime/malloc.go`): `1 << 48` bytes
on the 64-bit platforms.  `make([]byte, n)` panics (`makeslice: len out of range`) for a length
above it; a request within the limit is taken to be served (running out of memory is not
modelled). -/
def maxAlloc : Nat := 2 ^ 48

/-- `RandStringBytesMaskImprSrc(n)` on the source `src`, the loop being run for at most `fuel`
iterations.  `make([]byte, n)` panics when `n` is negative, and when `n` is above the
allocation limit; in both cases nothing has been drawn from the source yet. -/
def RandStringBytesMaskImprSrc (src : Source) (fuel : Nat) (n : Int) : Outcome :=
  if n < 0 then Outcome.panicked
  else if (maxAlloc : Int) < n then Outcome.panicked
  else
    match loop src fuel (initState src n) with
    | some st => Outcome.returned (String.mk st.b) st.calls st.examined
    | none => Outcome.running

/-! ### The group stream, in the words of the specification -/

/-- The `m`-th 6-bit group of the source: the groups of the draw `c` are the ten values
`(c >> 6k) & 63` for `k = 0..9`, in that order, draw after draw. -/
def group (src : Source) (m : Nat) : Nat := (Int63 src (m / 10) >>> (6 * (m % 10))) &&& 63

/-- The accepted groups (value `< 52`) among the first `K` groups, in order. -/
def accepted (src : Source) (K : Nat) : List Nat :=
  ((List.range K).map (group src)).filter (fun g => decide (g < 52))

/-- The state of the loop after `t` iterations, in closed form: the letters of the accepted
groups fill the buffer from its last position towards the first. -/
def specState (src : Source) (n t : Nat) : LoopState :=
  { b := List.replicate (n - (accepted src t).length) (Char.ofNat 0)
          ++ ((accepted src t).map letterAt).reverse,
    i := (n : Int) - 1 - ((accepted src t).length : Int),
    cache := if t = 0 then Int63 src 0 else Int63 src ((t - 1) / 10) >>> (6 * ((t - 1) % 10 + 1)),
    remain := if t = 0 then 10 else 9 - (((t - 1) % 10 : Nat) : Int),
    calls := (t - 1) / 10 + 1,
    examined := t }

/-- The first `k` in `t, t+1, ..., t+fuel` at which `p` holds. -/
def firstStop (p : Nat → Bool) : Nat → Nat → Option Nat
  | 0, t => if p t then some t else none
  | fuel + 1, t => if p t then some t else firstStop p fuel (t + 1)

/-! ## The stream codec

`compress` and `decompress` are thin wrappers around the standard library package
`compress/flate`, whose code is not part of this repository.  The wrappers are embedded from
`utils.go`; the package is a parameter (`Flate`), of which `storedFlate` is one instance. -/

/-- A byte. -/
abbrev Byte := UInt8

/-- The errors a flate reader ends with (other than `io.EOF`). -/
inductive ReadError where
  /-- `io.ErrUnexpectedEOF`: the compressed stream stops in the middle of a block -/
  | unexpectedEOF
  /-- `flate.CorruptInputError`: the compressed stream is not well formed -/
  | corruptInput
  /-- the stream holds a block that the instance at hand does not decode -/
  | unsupported
deriving DecidableEq, Repr

/-- The operations of `compress/flate` that `utils.go` calls. -/
structure Flate where
  /-- the state of a `*flate.Writer` -/
  Writer : Type
  /-- `flate.NewWriter(dest, level)`: the new writer, or `none` when the constructor returns
  `(nil, err)` -/
  NewWriter : Int → Option Writer
  /-- `w.Write(p)`: the bytes the call writes through to `dest`, and the new state -/
  Write : Writer → List Byte → List Byte × Writer
  /-- `w.Close()`: the bytes the call flushes to `dest` -/
  Close : Writer → List Byte
  /-- What `io.Copy(dest, flate.NewReader(src))` gets out of the reader over the bytes `src`:
  the bytes it delivers, in order, and how the reading ends, with `io.EOF` (`none`) or with an
  error. -/
  ReadAll : List Byte → List Byte × Option ReadError

/-- How a call of `compress` ends: the contents of `dest`, and whether the call ended in a
run-time panic rather than by returning. -/
structure Effect where
  /-- the contents of `dest` when the call ends -/
  dest : List Byte
  /-- whether the call panicked -/
  panicked : Bool
deriving DecidableEq, Repr

/-- `compress(src, dest, level)` (lines 175-179); `dest` is the contents of the writer before
the call.  The error of `flate.NewWriter` is discarded (`compressor, _ := ...`); when there is
one, `compressor` is `nil` and `compressor.Write(src)` dereferences it, which panics.  The
results of `Write` and `Close` are discarded. -/
def compress (F : Flate) (src dest : List Byte) (level : Int) : Effect :=
  match F.NewWriter level with
  | none => { dest := dest, panicked := true }
  | some compressor =>
    let written := F.Write compressor src
    { dest := dest ++ written.1 ++ F.Close written.2, panicked := false }

/-- `compressByte(src)` (lines 160-164): `compress` into a new buffer at level 9; `none` when
the call panics. -/
def compressByte (F : Flate) (src : List Byte) : Option (List Byte) :=
  let e := compress F src [] 9
  if e.panicked then none else some e.dest

/-- `decompress(src, dest)` (lines 182-186): the contents of `dest` after the call.  The
results of `io.Copy` (the number of bytes and the error) and of `Close` are discarded. -/
def decompress (F : Flate) (src dest : List Byte) : List Byte :=
  dest ++ (F.ReadAll src).1

/-- `decompressByte(src)` (lines 167-172): `decompress` into a new buffer, whose bytes are
returned. -/
def decompressByte (F : Flate) (src : List Byte) : List Byte :=
  decompress F src []

/-- The contract of `compress/flate` that the round trip rests on, at one level: the
constructor accepts the level, and whatever is written to the writer, in any number of
`Write` calls followed by `Close`, is read back whole, up to `io.EOF`. -/
def Flate.RoundTripsAt (F : Flate) (level : Int) : Prop :=
  ∃ w, F.NewWriter level = some w ∧
    ∀ writes : List (List Byte),
      F.ReadAll
        ((writes.foldl (fun acc p => (acc.1 ++ (F.Write acc.2 p).1, (F.Write acc.2 p).2))
            (([] : List Byte), w)).1
          ++ F.Close (writes.foldl
            (fun acc p => (acc.1 ++ (F.Write acc.2 p).1, (F.Write acc.2 p).2))
            (([] : List Byte), w)).2)
        = (writes.flatten, none)

/-! ### An instance: the codec that writes stored blocks only -/

/-- A stored block (RFC 1951, 3.2.4) holding `chunk` (at most 65535 bytes): the header byte
(`BFINAL` in bit 0, `BTYPE = 00`), `LEN` and its complement `NLEN`, low byte first, then the
bytes. -/
def storedBlock (final : Bool) (chunk : List Byte) : List Byte :=
  [if final then 1 else 0,
   UInt8.ofNat (chunk.length % 256), UInt8.ofNat (chunk.length / 256),
   UInt8.ofNat ((65535 - chunk.length) % 256), UInt8.ofNat ((65535 - chunk.length) / 256)]
  ++ chunk

/-- The data cut into stored blocks of 65535 bytes, none of them final (`fuel` bounds the
number of blocks). -/
def storedEncode : Nat → List Byte → List Byte
  | 0, _ => []
  | fuel + 1, d =>
    if d.length = 0 then []
    else storedBlock false (d.take 65535) ++ storedEncode fuel (d.drop 65535)

/-- Reading a stream of stored blocks (`fuel` bounds the number of blocks): the bytes
delivered and how the reading ends.  A block of type 3 is corrupt input, a block of type 1 or
2 (Huffman codes) is not decoded by this instance; a stream that stops early delivers the
bytes read so far and ends with `unexpectedEOF`. -/
def storedDecode : Nat → List Byte → List Byte × Option ReadError
  | 0, _ => ([], some ReadError.unexpectedEOF)
  | _ + 1, [] => ([], some ReadError.unexpectedEOF)
  | fuel + 1, hdr :: rest =>
    if hdr.toNat / 2 % 4 = 3 then ([], some ReadError.corruptInput)
    else if hdr.toNat / 2 % 4 ≠ 0 then ([], some ReadError.unsupported)
    else
      match rest with
      | l0 :: l1 :: n0 :: n1 :: body =>
        if n0.toNat + 256 * n1.toNat ≠ 65535 - (l0.toNat + 256 * l1.toNat) then
          ([], some ReadError.corruptInput)
        else if body.length < l0.toNat + 256 * l1.toNat then
          (body, some ReadError.unexpectedEOF)
        else if hdr.toNat % 2 = 1 then (body.take (l0.toNat + 256 * l1.toNat), none)
        else
          let more := storedDecode fuel (body.drop (l0.toNat + 256 * l1.toNat))
          (body.take (l0.toNat + 256 * l1.toNat) ++ more.1, more.2)
      | _ => ([], some ReadError.unexpectedEOF)

/-- An instance of `Flate`: the writer of every valid level (`-2..9`) writes stored blocks,
followed on `Close` by an empty final stored block; the reader decodes stored blocks. -/
def storedFlate : Flate where
  Writer := List Byte
  NewWriter := fun level => if -2 ≤ level ∧ level ≤ 9 then some [] else none
  Write := fun w p => ([], w ++ p)
  Close := fun w => storedEncode w.length w ++ storedBlock true []
  ReadAll := fun src => storedDecode (src.length + 1) src

/-! ## The local address -/

/-- A `net.IP`: a slice of bytes. -/
abbrev IP := List Byte

/-- `ip.To4()`: the 4-byte form of an IPv4 address (given in 4 bytes, or in 16 bytes as an
IPv4-mapped address), `none` (nil) for any other. -/
def IP.To4 (ip : IP) : Option IP :=
  if ip.length = 4 then some ip
  else if ip.length = 16 ∧ ip.take 10 = List.replicate 10 0 ∧ (ip.drop 10).take 2 = [255, 255]
  then some (ip.drop 12)
  else none

/-- The address `net.IPv6loopback`, `::1`. -/
def IPv6loopback : IP := [0, 0, 0, 0, 0, 0, 0, 0, 0, 0, 0, 0, 0, 0, 0, 1]

/-- `ip.IsLoopback()`: `127.x.x.x` for an IPv4 address, `::1` otherwise. -/
def IP.IsLoopback (ip : IP) : Bool :=
  match ip.To4 with
  | some ip4 => ip4.head? == some 127
  | none => ip == IPv6loopback

/-- `ip.String()` for an IPv4 address: the dotted decimal form.  `GetLocalIP` evaluates it
only when `ip.To4() != nil`; the text of any other address is not modelled and is left
empty. -/
def IP.String (ip : IP) : String :=
  match ip.To4 with
  | some ip4 => ".".intercalate (ip4.map fun b => toString b.toNat)
  | none => ""

/-- A `net.Addr` as `net.InterfaceAddrs()` returns them: an `*net.IPNet` (address and mask)
or an `*net.IPAddr` (address and zone). -/
inductive Addr where
  /-- an IP network address, `*net.IPNet` -/
  | IPNet (ip : IP) (mask : List Byte)
  /-- an IP end point address, `*net.IPAddr` -/
  | IPAddr (ip : IP) (zone : String)
deriving DecidableEq, Repr

/-- `strings.Contains(s, substr)`. -/
def stringsContains (s substr : String) : Bool := decide (substr.data <:+: s.data)

/-- The `for _, address := range addrs` loop of `GetLocalIP` (lines 84-92). -/
def rangeAddrs : List Addr → String → String
  | [], bestIP => bestIP
  | Addr.IPNet ip _ :: rest, bestIP =>
    if !ip.IsLoopback then
      if ip.To4 ≠ none ∧ (stringsContains ip.String "192.168.1"
          || stringsContains ip.String "192.168") then
        ip.String
      else rangeAddrs rest bestIP
    else rangeAddrs rest bestIP
  | Addr.IPAddr _ _ :: rest, bestIP => rangeAddrs rest bestIP

/-- `GetLocalIP()` (lines 78-93), as a function of what `net.InterfaceAddrs()` returns: the
addresses, or an error. -/
def GetLocalIP (ifaces : Except String (List Addr)) : String :=
  match ifaces with
  | Except.error _ => "localhost"
  | Except.ok addrs => rangeAddrs addrs "localhost"

/-- The address the specification picks, for a given test `marked` on the textual form: the
text of the first address that is an IP network address, is not loopback, is IPv4 and whose
text is `marked`; `"localhost"` when there is none or the enumeration failed. -/
def pickedAddress (marked : String → Bool) (ifaces : Except String (List Addr)) : String :=
  match ifaces with
  | Except.error _ => "localhost"
  | Except.ok addrs =>
    match addrs.find? (fun a =>
        match a with
        | Addr.IPNet ip _ => !ip.IsLoopback && ip.To4.isSome && marked ip.String
        | Addr.IPAddr _ _ => false) with
    | some (Addr.IPNet ip _) => ip.String
    | _ => "localhost"

/-! ### Lemmas on the loop -/

theorem letterBytes_length : letterBytes.length = 52 := by decide

theorem letterIdxMask_eq : letterIdxMask = 63 := by decide

theorem letterIdxMax_eq : letterIdxMax = 10 := by decide

theorem accepted_succ (src : Source) (t : Nat) :
    accepted src (t + 1)
      = accepted src t ++ (if group src t < 52 then [group src t] else []) := by
  unfold accepted
  rw [List.range_succ, List.map_append, List.filter_append]
  congr 1
  by_cases h : group src t < 52 <;> simp [h]

theorem accepted_length_succ_le (src : Source) (t : Nat) :
    (accepted src (t + 1)).length ≤ (accepted src t).length + 1 := by
  rw [accepted_succ]
  split <;> simp

theorem accepted_lt (src : Source) (K g : Nat) (h : g ∈ accepted src K) : g < 52 := by
  unfold accepted at h
  simpa using (List.mem_filter.mp h).2

theorem set_replicate_append (m : Nat) (c z : Char) (r : List Char) :
    (List.replicate (m + 1) z ++ r).set m c = List.replicate m z ++ c :: r := by
  induction m with
  | zero => simp
  | succ m ih =>
    rw [List.replicate_succ, List.cons_append, List.set_cons_succ, ih, List.replicate_succ,
      List.cons_append]

/-- The state in which the group of iteration `t` is looked at, after the refill. -/
theorem refill_specState (src : Source) (n t : Nat) :
    refill src (specState src n t)
      = { specState src n t with
          cache := Int63 src (t / 10) >>> (6 * (t % 10)),
          remain := 10 - ((t % 10 : Nat) : Int),
          calls := t / 10 + 1 } := by
  rcases Nat.eq_zero_or_pos t with h0 | hpos
  · subst h0
    simp [refill, specState]
  · obtain ⟨u, rfl⟩ : ∃ u, t = u + 1 := ⟨t - 1, by omega⟩
    by_cases h9 : u % 10 = 9
    · have e1 : (u + 1) / 10 = u / 10 + 1 := by omega
      have e2 : (u + 1) % 10 = 0 := by omega
      simp [refill, specState, h9, e1, e2, letterIdxMax_eq]
    · have e1 : (u + 1) / 10 = u / 10 := by omega
      have e2 : (u + 1) % 10 = u % 10 + 1 := by omega
      have e3 : ¬ ((specState src n (u + 1)).remain = 0) := by
        simp only [specState, Nat.add_sub_cancel]
        rw [if_neg (by omega)]
        omega
      rw [refill, if_neg e3]
      simp only [specState, Nat.add_sub_cancel, e1, e2, LoopState.mk.injEq, true_and, and_true]
      refine ⟨by rw [if_neg (by omega)], ?_⟩
      rw [if_neg (by omega)]
      omega

/-- One iteration takes the closed form at `t` to the closed form at `t + 1`, as long as
fewer than `n` groups have been accepted. -/
theorem loopBody_specState (src : Source) (n t : Nat) (h : (accepted src t).length < n) :
    loopBody src (specState src n t) = specState src n (t + 1) := by
  have hg : (Int63 src (t / 10) >>> (6 * (t % 10))) &&& letterIdxMask = group src t := by
    rw [letterIdxMask_eq, group]
  have hsh : Int63 src (t / 10) >>> (6 * (t % 10)) >>> letterIdxBits
      = Int63 src (t / 10) >>> (6 * (t % 10 + 1)) := by
    rw [← Nat.shiftRight_add]
    rfl
  have hrem : (10 : Int) - ((t % 10 : Nat) : Int) - 1 = 9 - ((t % 10 : Nat) : Int) := by omega
  rw [loopBody, refill_specState]
  by_cases hacc : group src t < 52
  · have hlen : (accepted src (t + 1)).length = (accepted src t).length + 1 := by
      rw [accepted_succ, if_pos hacc]; simp
    have hb : (List.replicate (n - (accepted src t).length) (Char.ofNat 0)
          ++ ((accepted src t).map letterAt).reverse).set
            ((n : Int) - 1 - ((accepted src t).length : Int)).toNat (letterAt (group src t))
        = List.replicate (n - (accepted src (t + 1)).length) (Char.ofNat 0)
          ++ ((accepted src (t + 1)).map letterAt).reverse := by
      obtain ⟨m, hm⟩ : ∃ m, n - (accepted src t).length = m + 1 :=
        ⟨n - (accepted src t).length - 1, by omega⟩
      have e1 : ((n : Int) - 1 - ((accepted src t).length : Int)).toNat = m := by omega
      have e2 : n - ((accepted src t).length + 1) = m := by omega
      rw [e1, hm, set_replicate_append, hlen, e2, accepted_succ, if_pos hacc]
      simp
    simp only [emit, shift, specState, hg, letterBytes_length, if_pos hacc, hb, hsh, hrem,
      Nat.add_sub_cancel, LoopState.mk.injEq, true_and, and_true]
    refine ⟨?_, by simp⟩
    rw [hlen]; push_cast; ring
  · have hlen : accepted src (t + 1) = accepted src t := by
      rw [accepted_succ, if_neg hacc]; simp
    simp only [emit, shift, specState, hg, letterBytes_length, if_neg hacc, hlen, hsh, hrem,
      Nat.add_sub_cancel, LoopState.mk.injEq, true_and, and_true]
    simp

theorem initState_eq (src : Source) (n : Nat) :
    initState src (n : Int) = specState src n 0 := by
  simp [initState, specState, accepted, letterIdxMax_eq]

theorem firstStop_some (p : Nat → Bool) :
    ∀ (fuel t k : Nat), firstStop p fuel t = some k →
      t ≤ k ∧ k ≤ t + fuel ∧ p k = true ∧ ∀ j, t ≤ j → j < k → p j = false
  | 0, t, k, h => by
    unfold firstStop at h
    by_cases hp : p t = true
    · rw [if_pos hp] at h
      cases h
      exact ⟨le_refl _, by omega, hp, fun j h1 h2 => by omega⟩
    · rw [if_neg hp] at h
      cases h
  | fuel + 1, t, k, h => by
    unfold firstStop at h
    by_cases hp : p t = true
    · rw [if_pos hp] at h
      cases h
      exact ⟨le_refl _, by omega, hp, fun j h1 h2 => by omega⟩
    · rw [if_neg hp] at h
      obtain ⟨h1, h2, h3, h4⟩ := firstStop_some p fuel (t + 1) k h
      refine ⟨by omega, by omega, h3, fun j hj1 hj2 => ?_⟩
      rcases Nat.eq_or_lt_of_le hj1 with e | e
      · subst e; simpa using hp
      · exact h4 j e hj2

theorem firstStop_none (p : Nat → Bool) :
    ∀ (fuel t : Nat), firstStop p fuel t = none → ∀ j, t ≤ j → j ≤ t + fuel → p j = false
  | 0, t, h, j, h1, h2 => by
    unfold firstStop at h
    by_cases hp : p t = true
    · rw [if_pos hp] at h; cases h
    · have : j = t := by omega
      subst this; simpa using hp
  | fuel + 1, t, h, j, h1, h2 => by
    unfold firstStop at h
    by_cases hp : p t = true
    · rw [if_pos hp] at h; cases h
    · rw [if_neg hp] at h
      rcases Nat.eq_or_lt_of_le h1 with e | e
      · subst e; simpa using hp
      · exact firstStop_none p fuel (t + 1) h j e (by omega)

theorem firstStop_of_true (p : Nat → Bool) :
    ∀ (fuel t K : Nat), t ≤ K → K ≤ t + fuel → p K = true → ∃ k, firstStop p fuel t = some k := by
  intro fuel t K h1 h2 hp
  cases h : firstStop p fuel t with
  | some k => exact ⟨k, rfl⟩
  | none =>
    have := firstStop_none p fuel t h K h1 h2
    rw [hp] at this
    cases this

/-- The loop, started in the closed form at `t`, stops in the closed form at the first
`k >= t` at which `n` groups have been accepted. -/
theorem loop_specState (src : Source) (n : Nat) :
    ∀ (fuel t : Nat), loop src fuel (specState src n t)
      = (firstStop (fun k => decide (n ≤ (accepted src k).length)) fuel t).map (specState src n)
  | 0, t => by
    unfold loop firstStop
    by_cases h : n ≤ (accepted src t).length
    · have hi : ¬ (0 ≤ (specState src n t).i) := by simp only [specState]; omega
      simp [hi, h]
    · have hi : 0 ≤ (specState src n t).i := by simp only [specState]; omega
      simp [hi, h]
  | fuel + 1, t => by
    unfold loop firstStop
    by_cases h : n ≤ (accepted src t).length
    · have hi : ¬ (0 ≤ (specState src n t).i) := by simp only [specState]; omega
      simp [hi, h]
    · have hi : 0 ≤ (specState src n t).i := by simp only [specState]; omega
      rw [if_pos hi, loopBody_specState src n t (by omega), loop_specState src n fuel (t + 1)]
      simp [h]

/-- When the first stop is at `k`, exactly `n` groups have been accepted among the first
`k`. -/
theorem accepted_length_at_stop (src : Source) (n fuel k : Nat)
    (h : firstStop (fun k => decide (n ≤ (accepted src k).length)) fuel 0 = some k) :
    (accepted src k).length = n := by
  obtain ⟨_, _, hk, hlt⟩ := firstStop_some _ fuel 0 k h
  have hk1 : n ≤ (accepted src k).length := by simpa using hk
  rcases Nat.eq_zero_or_pos k with h0 | hpos
  · subst h0
    have : (accepted src 0).length = 0 := by simp [accepted]
    omega
  · obtain ⟨u, rfl⟩ : ∃ u, k = u + 1 := ⟨k - 1, by omega⟩
    have h2 := hlt u (Nat.zero_le _) (Nat.lt_succ_self _)
    have h3 : (accepted src u).length < n := by simpa using h2
    have h4 := accepted_length_succ_le src u
    omega

/-- The generator in closed form: it returns at the first `k <= fuel` at which `n` groups
have been accepted, with the letters of the accepted groups in reverse order. -/
theorem RandStringBytesMaskImprSrc_eq (src : Source) (fuel n : Nat) (hmax : n ≤ maxAlloc) :
    RandStringBytesMaskImprSrc src fuel (n : Int)
      = match firstStop (fun k => decide (n ≤ (accepted src k).length)) fuel 0 with
        | some k => Outcome.returned (String.mk ((accepted src k).map letterAt).reverse)
            ((k - 1) / 10 + 1) k
        | none => Outcome.running := by
  have hn : ¬ ((n : Int) < 0) := by omega
  have hm : ¬ ((maxAlloc : Int) < (n : Int)) := by omega
  rw [RandStringBytesMaskImprSrc, if_neg hn, if_neg hm, initState_eq, loop_specState]
  cases h : firstStop (fun k => decide (n ≤ (accepted src k).length)) fuel 0 with
  | none => rfl
  | some k =>
    have hl := accepted_length_at_stop src n fuel k h
    simp [specState, hl]

theorem group_eq_div_mod (src : Source) (m : Nat) :
    group src m = Int63 src (m / 10) / 2 ^ (6 * (m % 10)) % 64 := by
  have h : (63 : Nat) = 2 ^ 6 - 1 := by norm_num
  rw [group, h, Nat.and_pow_two_sub_one_eq_mod, Nat.shiftRight_eq_div_pow]

/-- A group depends on the low 60 bits of its draw only. -/
theorem group_low60 (src src2 : Source)
    (h : ∀ k, Int63 src2 k % 2 ^ 60 = Int63 src k % 2 ^ 60) (m : Nat) :
    group src2 m = group src m := by
  have key : ∀ (x y r : Nat), r < 10 → x % 2 ^ 60 = y % 2 ^ 60 →
      x / 2 ^ (6 * r) % 64 = y / 2 ^ (6 * r) % 64 := by
    intro x y r hr hxy
    interval_cases r <;> norm_num at hxy ⊢ <;> omega
  rw [group_eq_div_mod, group_eq_div_mod]
  exact key _ _ _ (Nat.mod_lt _ (by norm_num)) (h _)

theorem accepted_low60 (src src2 : Source)
    (h : ∀ k, Int63 src2 k % 2 ^ 60 = Int63 src k % 2 ^ 60) (K : Nat) :
    accepted src2 K = accepted src K := by
  have hg : group src2 = group src := funext (group_low60 src src2 h)
  rw [accepted, accepted, hg]

theorem accepted_prefix (src : Source) {k K : Nat} (h : k ≤ K) :
    ∃ r, accepted src K = accepted src k ++ r := by
  induction K with
  | zero =>
    have : k = 0 := by omega
    subst this
    exact ⟨[], by simp⟩
  | succ K ih =>
    rcases Nat.lt_or_ge k (K + 1) with h1 | h1
    · obtain ⟨r, hr⟩ := ih (by omega)
      exact ⟨r ++ (if group src K < 52 then [group src K] else []), by
        rw [accepted_succ, hr, List.append_assoc]⟩
    · have : k = K + 1 := by omega
      subst this
      exact ⟨[], by simp⟩

/-- The state after `t` iterations is the closed form, as long as the loop has not stopped. -/
theorem iterate_specState (src : Source) (n : Nat) :
    ∀ t, (∀ u, u < t → (accepted src u).length < n) →
      (loopBody src)^[t] (initState src (n : Int)) = specState src n t
  | 0, _ => by simp [initState_eq]
  | t + 1, h => by
    rw [Function.iterate_succ_apply', iterate_specState src n t (fun u hu => h u (by omega)),
      loopBody_specState src n t (h t (by omega))]

theorem letterAt_mem : ∀ g, g < 52 → letterAt g ∈ letterBytes.data := by decide

theorem letterAt_injective : ∀ g, g < 52 → ∀ g2, g2 < 52 → letterAt g = letterAt g2 → g = g2 := by
  decide

/-- A call that returns was asked for a length within the allocation limit. -/
theorem le_maxAlloc_of_returned (src : Source) (fuel n : Nat) (s : String) (calls k : Nat)
    (h : RandStringBytesMaskImprSrc src fuel (n : Int) = Outcome.returned s calls k) :
    n ≤ maxAlloc := by
  by_contra hc
  have hn : ¬ ((n : Int) < 0) := by omega
  have hm : (maxAlloc : Int) < (n : Int) := by omega
  rw [RandStringBytesMaskImprSrc, if_neg hn, if_pos hm] at h
  cases h

/-- A length above the allocation limit makes the call panic, on every source. -/
theorem RandStringBytesMaskImprSrc_too_long (src : Source) (fuel : Nat) (n : Int)
    (h : (maxAlloc : Int) < n) : RandStringBytesMaskImprSrc src fuel n = Outcome.panicked := by
  unfold RandStringBytesMaskImprSrc
  rw [if_pos h]
  split <;> rfl

/-- What a returning call tells: it stopped at the first `k <= fuel` at which `n` groups
had been accepted. -/
theorem returned_spec (src : Source) (fuel n : Nat) (s : String) (calls k : Nat)
    (h : RandStringBytesMaskImprSrc src fuel (n : Int) = Outcome.returned s calls k) :
    (accepted src k).length = n ∧ (∀ u, u < k → (accepted src u).length < n) ∧ k ≤ fuel ∧
      s = String.mk ((accepted src k).map letterAt).reverse ∧ calls = (k - 1) / 10 + 1 := by
  rw [RandStringBytesMaskImprSrc_eq src fuel n
    (le_maxAlloc_of_returned src fuel n s calls k h)] at h
  cases hfs : firstStop (fun k => decide (n ≤ (accepted src k).length)) fuel 0 with
  | none => rw [hfs] at h; cases h
  | some k2 =>
    rw [hfs] at h
    simp only [Outcome.returned.injEq] at h
    obtain ⟨h1, h2, h3⟩ := h
    subst h3
    obtain ⟨_, hle, _, hlt⟩ := firstStop_some _ fuel 0 k2 hfs
    refine ⟨accepted_length_at_stop src n fuel k2 hfs, fun u hu => ?_, by omega, h1.symm,
      h2.symm⟩
    simpa using hlt u (Nat.zero_le _) hu

/-- Enough accepted groups among the first `K` make the call return within `K` iterations. -/
theorem returns_of_accepted (src : Source) (fuel n K : Nat) (hmax : n ≤ maxAlloc)
    (hK : n ≤ (accepted src K).length) (hf : K ≤ fuel) :
    ∃ k, k ≤ K ∧ RandStringBytesMaskImprSrc src fuel (n : Int)
      = Outcome.returned (String.mk ((accepted src k).map letterAt).reverse)
          ((k - 1) / 10 + 1) k := by
  obtain ⟨k, hk⟩ := firstStop_of_true (fun k => decide (n ≤ (accepted src k).length)) fuel 0 K
    (Nat.zero_le _) (by omega) (by simpa using hK)
  refine ⟨k, ?_, by rw [RandStringBytesMaskImprSrc_eq src fuel n hmax, hk]⟩
  obtain ⟨_, _, _, hlt⟩ := firstStop_some _ fuel 0 k hk
  by_contra hc
  have := hlt K (Nat.zero_le _) (by omega)
  simp at this
  omega

theorem nonneg_of_returned (src : Source) (fuel : Nat) (n : Int) (s : String) (calls k : Nat)
    (h : RandStringBytesMaskImprSrc src fuel n = Outcome.returned s calls k) : 0 ≤ n := by
  by_contra hn
  rw [RandStringBytesMaskImprSrc, if_pos (by omega)] at h
  cases h

theorem RandStringBytesMaskImprSrc_zero (src : Source) (fuel : Nat) :
    RandStringBytesMaskImprSrc src fuel 0 = Outcome.returned "" 1 0 := by
  have h := RandStringBytesMaskImprSrc_eq src fuel 0 (Nat.zero_le _)
  cases fuel <;> simpa [firstStop, accepted] using h

theorem ceil_div_ten (k : Nat) : (k - 1) / 10 + 1 = max 1 ((k + 9) / 10) := by
  rcases Nat.eq_zero_or_pos k with h | h
  · subst h; rfl
  · have : (k + 9) / 10 = (k - 1) / 10 + 1 := by omega
    rw [this]
    omega

/-! ### The claims on the random string generator -/

/-- C1: for every `n >= 0` and every random source on which `RandStringBytesMaskImprSrc(n)`
returns, the returned string has length exactly `n` and every one of its characters is one of
the 52 letters of `letterBytes`; and `n = 0` returns the empty string (on every source). -/
theorem C1_length_and_alphabet (src : Source) (fuel : Nat) (n : Int) (s : String)
    (calls examined : Nat) (hn : 0 ≤ n)
    (h : RandStringBytesMaskImprSrc src fuel n = Outcome.returned s calls examined) :
    (s.length : Int) = n ∧ (∀ c ∈ s.data, c ∈ letterBytes.data) ∧
      RandStringBytesMaskImprSrc src fuel 0 = Outcome.returned "" 1 0 := by
  obtain ⟨m, rfl⟩ := Int.eq_ofNat_of_zero_le hn
  obtain ⟨hlen, _, _, hs, _⟩ := returned_spec src fuel m s calls examined h
  subst hs
  refine ⟨?_, ?_, RandStringBytesMaskImprSrc_zero src fuel⟩
  · simp [String.length, hlen]
  · intro c hc
    simp only [List.mem_reverse, List.mem_map] at hc
    obtain ⟨g, hg, rfl⟩ := hc
    exact letterAt_mem g (accepted_lt src _ g hg)

/-- Witness of C1: a source whose first groups are 0, 63, 27, 51, asked for 3 letters. -/
theorem C1_length_and_alphabet_witness :
    RandStringBytesMaskImprSrc (fun _ => 3033382848) 8 3 = Outcome.returned "ZBa" 1 4 ∧
    (("ZBa".length : Int) = 3 ∧ (∀ c ∈ "ZBa".data, c ∈ letterBytes.data) ∧
      RandStringBytesMaskImprSrc (fun _ => 3033382848) 8 0
        = Outcome.returned "" 1 0) :=
  ⟨by decide, C1_length_and_alphabet (fun _ => 3033382848) 8 3 "ZBa" 1 4 (by decide)
    (by decide)⟩

/-- C9: exact output of the bit-cache extraction.  When the call returns `s` for `n >= 0`:
`s` has length `n`; its character at position `n-1-j` is `letterBytes[a_j]`, where `a_j` is the
`j`-th accepted group (value `< 52`) of the stream of 6-bit groups `(c >> 6k) & 63`,
`k = 0..9`, of the successive draws; after `t` iterations the cursor `i` is `n-1` minus the
number of accepted groups among the first `t` (it starts at the last position, an accepted
group moves it one position towards the first, a rejected group leaves it where it is); and
a source that agrees with `src` on the low 60 bits of every draw gives the same result. -/
theorem C9_exact_output (src : Source) (fuel n : Nat) (s : String) (calls examined : Nat)
    (h : RandStringBytesMaskImprSrc src fuel (n : Int) = Outcome.returned s calls examined) :
    s.length = n ∧
    (∀ K j a, j < n → (accepted src K)[j]? = some a →
        s.data[n - 1 - j]? = some (letterAt a)) ∧
    (∀ K, n ≤ (accepted src K).length →
        s = String.mk (((accepted src K).take n).map letterAt).reverse) ∧
    (∀ t, t ≤ examined →
        ((loopBody src)^[t] (initState src (n : Int))).i
          = (n : Int) - 1 - ((accepted src t).length : Int)) ∧
    (∀ src2 : Source, (∀ k, Int63 src2 k % 2 ^ 60 = Int63 src k % 2 ^ 60) →
        RandStringBytesMaskImprSrc src2 fuel (n : Int) = Outcome.returned s calls examined) := by
  obtain ⟨hlen, hlt, hfuel, hs, hcalls⟩ := returned_spec src fuel n s calls examined h
  have hpre : ∀ K j a, j < n → (accepted src K)[j]? = some a →
      (accepted src examined)[j]? = some a := by
    intro K j a hj hK
    rcases Nat.le_total examined K with hle | hle
    · obtain ⟨r, hr⟩ := accepted_prefix src hle
      rw [hr, List.getElem?_append_left (by omega)] at hK
      exact hK
    · obtain ⟨r, hr⟩ := accepted_prefix src hle
      have hjK : j < (accepted src K).length := by
        by_contra hc
        rw [List.getElem?_eq_none (by omega)] at hK
        cases hK
      rw [hr, List.getElem?_append_left hjK]
      exact hK
  refine ⟨by simp [hs, String.length, hlen], ?_, ?_, ?_, ?_⟩
  · intro K j a hj hK
    have h1 := hpre K j a hj hK
    subst hs
    have hl : ((accepted src examined).map letterAt).length = n := by simp [hlen]
    rw [List.getElem?_reverse (by omega), hl]
    have e : n - 1 - (n - 1 - j) = j := by omega
    rw [e, List.getElem?_map, h1]
    rfl
  · intro K hK
    have hle : examined ≤ K := by
      by_contra hc
      have := hlt K (by omega)
      omega
    obtain ⟨r, hr⟩ := accepted_prefix src hle
    rw [hs, hr, ← hlen, List.take_left]
  · intro t ht
    rw [iterate_specState src n t (fun u hu => hlt u (by omega))]
    rfl
  · intro src2 h2
    have ha : ∀ K, accepted src2 K = accepted src K := accepted_low60 src src2 h2
    have hfun : (fun k => decide (n ≤ (accepted src2 k).length))
        = (fun k => decide (n ≤ (accepted src k).length)) := by
      funext k; rw [ha]
    have hmax := le_maxAlloc_of_returned src fuel n s calls examined h
    rw [← h, RandStringBytesMaskImprSrc_eq src2 fuel n hmax,
      RandStringBytesMaskImprSrc_eq src fuel n hmax, hfun]
    cases firstStop (fun k => decide (n ≤ (accepted src k).length)) fuel 0 with
    | none => rfl
    | some k => simp only [ha]

/-- Witness of C9: the source whose first groups are 0, 63, 27, 51, asked for 3 letters. -/
theorem C9_exact_output_witness :
    "ZBa".length = 3 ∧
    (∀ K j a, j < 3 → (accepted (fun _ => 3033382848) K)[j]? = some a →
        "ZBa".data[3 - 1 - j]? = some (letterAt a)) ∧
    (∀ K, 3 ≤ (accepted (fun _ => 3033382848) K).length →
        "ZBa" = String.mk (((accepted (fun _ => 3033382848) K).take 3).map letterAt).reverse) ∧
    (∀ t, t ≤ 4 →
        ((loopBody (fun _ => 3033382848))^[t] (initState (fun _ => 3033382848) ((3 : Nat) : Int))).i
          = ((3 : Nat) : Int) - 1 - ((accepted (fun _ => 3033382848) t).length : Int)) ∧
    (∀ src2 : Source,
        (∀ k, Int63 src2 k % 2 ^ 60 = Int63 (fun _ => 3033382848) k % 2 ^ 60) →
        RandStringBytesMaskImprSrc src2 8 ((3 : Nat) : Int) = Outcome.returned "ZBa" 1 4) :=
  C9_exact_output (fun _ => 3033382848) 8 3 "ZBa" 1 4 (by decide)

/-- C10: number of calls to the random source.  When the call returns after examining `k`
six-bit groups in total, it has called `src.Int63()` exactly `max(1, ceil(k / 10))` times; for
`n = 0` exactly one value is drawn and no group is examined; after `t` iterations
`max(1, ceil(t / 10))` values have been drawn and iteration `t` examines group `t % 10` of draw
`t / 10`; and the refill draws a value exactly when the counter `remain` is zero. -/
theorem C10_number_of_draws (src : Source) (fuel : Nat) (n : Int) (s : String)
    (calls examined : Nat)
    (h : RandStringBytesMaskImprSrc src fuel n = Outcome.returned s calls examined) :
    calls = max 1 ((examined + 9) / 10) ∧
    (n = 0 → examined = 0 ∧ calls = 1) ∧
    (∀ t, t ≤ examined →
        ((loopBody src)^[t] (initState src n)).calls = max 1 ((t + 9) / 10)) ∧
    (∀ t, t < examined →
        (refill src ((loopBody src)^[t] (initState src n))).cache &&& letterIdxMask
          = (Int63 src (t / 10) >>> (6 * (t % 10))) &&& 63) ∧
    (∀ st : LoopState,
        (refill src st).calls = if st.remain = 0 then st.calls + 1 else st.calls) := by
  obtain ⟨m, rfl⟩ := Int.eq_ofNat_of_zero_le (nonneg_of_returned src fuel n s calls examined h)
  obtain ⟨hlen, hlt, hfuel, hs, hcalls⟩ := returned_spec src fuel m s calls examined h
  refine ⟨by rw [hcalls, ceil_div_ten], ?_, ?_, ?_, ?_⟩
  · intro h0
    have hm : m = 0 := by omega
    subst hm
    have h1 := RandStringBytesMaskImprSrc_zero src fuel
    rw [show ((0 : Nat) : Int) = 0 from rfl] at h
    rw [h1] at h
    simp only [Outcome.returned.injEq] at h
    omega
  · intro t ht
    rw [iterate_specState src m t (fun u hu => hlt u (by omega)), ← ceil_div_ten]
    rfl
  · intro t ht
    rw [iterate_specState src m t (fun u hu => hlt u (by omega)), refill_specState,
      letterIdxMask_eq]
  · intro st
    unfold refill
    split <;> rfl

/-- Witness of C10: 23 groups examined (21 rejected, then 2 accepted), so 3 draws. -/
theorem C10_number_of_draws_witness :
    3 = max 1 ((23 + 9) / 10) ∧
    ((2 : Int) = 0 → 23 = 0 ∧ 3 = 1) ∧
    (∀ t, t ≤ 23 →
        ((loopBody (fun k => if k < 2 then 2 ^ 63 - 1 else 63))^[t]
          (initState (fun k => if k < 2 then 2 ^ 63 - 1 else 63) 2)).calls
            = max 1 ((t + 9) / 10)) ∧
    (∀ t, t < 23 →
        (refill (fun k => if k < 2 then 2 ^ 63 - 1 else 63)
          ((loopBody (fun k => if k < 2 then 2 ^ 63 - 1 else 63))^[t]
            (initState (fun k => if k < 2 then 2 ^ 63 - 1 else 63) 2))).cache &&& letterIdxMask
          = (Int63 (fun k => if k < 2 then 2 ^ 63 - 1 else 63) (t / 10) >>> (6 * (t % 10)))
              &&& 63) ∧
    (∀ st : LoopState,
        (refill (fun k => if k < 2 then 2 ^ 63 - 1 else 63) st).calls
          = if st.remain = 0 then st.calls + 1 else st.calls) :=
  C10_number_of_draws (fun k => if k < 2 then 2 ^ 63 - 1 else 63) 30 2 "aa" 3 23 (by decide)

theorem group_allOnes (m : Nat) : group (fun _ => 2 ^ 63 - 1) m = 63 := by
  have key : ∀ r, r < 10 → (2 ^ 63 - 1) % 2 ^ 63 / 2 ^ (6 * r) % 64 = 63 := by decide
  rw [group_eq_div_mod]
  exact key _ (Nat.mod_lt _ (by norm_num))

theorem accepted_allOnes (K : Nat) : accepted (fun _ => 2 ^ 63 - 1) K = [] := by
  induction K with
  | zero => rfl
  | succ K ih => rw [accepted_succ, ih, group_allOnes]; rfl

/-- C6, as stated, fails: on the source whose every draw is `2^63 - 1` (all ten groups of
every draw are 63, which is rejected) the call for `n = 1` never returns, whatever the number
of iterations allowed. -/
theorem C6_counterexample :
    ¬ ∃ fuel s calls examined,
        RandStringBytesMaskImprSrc (fun _ => 2 ^ 63 - 1) fuel 1
          = Outcome.returned s calls examined := by
  rintro ⟨fuel, s, calls, examined, h⟩
  have h1 := (returned_spec (fun _ => 2 ^ 63 - 1) fuel 1 s calls examined h).1
  rw [accepted_allOnes] at h1
  cases h1

/-- C6, amended: for a length `n` that `make` can allocate (`0 <= n <= maxAlloc`), the loop
terminates on every source whose group stream holds enough accepted groups.  If at least `n`
of the first `K` groups are accepted (value `< 52`), the call returns as soon as it is allowed
`K` iterations, having examined at most `K` groups and drawn at most `max(1, ceil(K / 10))`
values. -/
theorem C6_terminates_when_enough_accepted (src : Source) (n K fuel : Nat)
    (hn : n ≤ maxAlloc) (hK : n ≤ (accepted src K).length) (hf : K ≤ fuel) :
    ∃ s calls examined,
      RandStringBytesMaskImprSrc src fuel (n : Int) = Outcome.returned s calls examined ∧
      examined ≤ K ∧ calls ≤ max 1 ((K + 9) / 10) := by
  obtain ⟨k, hk, h⟩ := returns_of_accepted src fuel n K hn hK hf
  refine ⟨_, _, k, h, hk, ?_⟩
  rw [ceil_div_ten]
  have : (k + 9) / 10 ≤ (K + 9) / 10 := Nat.div_le_div_right (by omega)
  omega

/-- Witness of the amended C6: three of the first four groups 0, 63, 27, 51 are accepted. -/
theorem C6_terminates_when_enough_accepted_witness :
    3 ≤ maxAlloc ∧ 3 ≤ (accepted (fun _ => 3033382848) 4).length ∧
    ∃ s calls examined,
      RandStringBytesMaskImprSrc (fun _ => 3033382848) 4 ((3 : Nat) : Int)
        = Outcome.returned s calls examined ∧
      examined ≤ 4 ∧ calls ≤ max 1 ((4 + 9) / 10) :=
  ⟨by decide, by decide,
    C6_terminates_when_enough_accepted (fun _ => 3033382848) 3 4 4 (by decide) (by decide)
      (by decide)⟩

/-- C7, as stated, fails: for `n = -1` the call panics (in `make([]byte, n)`) and returns no
string. -/
theorem C7_counterexample :
    RandStringBytesMaskImprSrc (fun _ => 0) 10 (-1) = Outcome.panicked ∧
    ¬ ∃ fuel calls examined,
        RandStringBytesMaskImprSrc (fun _ => 0) fuel (-1) = Outcome.returned "" calls examined := by
  refine ⟨by decide, ?_⟩
  rintro ⟨fuel, calls, examined, h⟩
  have := nonneg_of_returned _ fuel (-1) "" calls examined h
  omega

/-- C7, amended: for every `n < 0` the call panics, on every source, before the loop runs:
it returns no string (no error value is returned either). -/
theorem C7_negative_length_panics (src : Source) (fuel : Nat) (n : Int) (hn : n < 0) :
    RandStringBytesMaskImprSrc src fuel n = Outcome.panicked := by
  rw [RandStringBytesMaskImprSrc, if_pos hn]

/-- Witness of the amended C7, at `n = -5`. -/
theorem C7_negative_length_panics_witness :
    RandStringBytesMaskImprSrc (fun k => k) 3 (-5) = Outcome.panicked :=
  C7_negative_length_panics (fun k => k) 3 (-5) (by decide)

theorem refill_b_i (src : Source) (st : LoopState) :
    (refill src st).b = st.b ∧ (refill src st).i = st.i := by
  unfold refill
  split <;> exact ⟨rfl, rfl⟩

theorem count_letter : ∀ c ∈ letterBytes.data,
    ((List.range 64).filter
      (fun g => decide (g < letterBytes.length) && decide (letterAt g = c))).length = 1 := by
  decide

/-- C3: uniformity by rejection.  The alphabet has 52 pairwise distinct letters; of the 64
values of a 6-bit group exactly the values 0..51 are accepted; `idx -> letterBytes[idx]` is a
bijection from `[0,52)` onto the alphabet; an iteration whose group is `>= 52` writes no
character and leaves the cursor alone (the group is not reduced modulo 52), one whose group
`g` is `< 52` writes `letterBytes[g]` at the cursor; hence, for a group uniform on the 64
values, the share of the accepted values that yield a given letter is exactly 1/52. -/
theorem C3_rejection_uniform :
    letterBytes.data.length = 52 ∧ letterBytes.data.Nodup ∧
    (List.range 64).filter (fun g => decide (g < letterBytes.length)) = List.range 52 ∧
    (∀ g, g < 52 → letterAt g ∈ letterBytes.data) ∧
    (∀ g, g < 52 → ∀ g2, g2 < 52 → letterAt g = letterAt g2 → g = g2) ∧
    (∀ c ∈ letterBytes.data, ∃ g, g < 52 ∧ letterAt g = c) ∧
    (∀ (src : Source) (st : LoopState),
      (refill src st).cache &&& letterIdxMask < 64 ∧
      (52 ≤ (refill src st).cache &&& letterIdxMask →
        (loopBody src st).b = st.b ∧ (loopBody src st).i = st.i) ∧
      ((refill src st).cache &&& letterIdxMask < 52 →
        (loopBody src st).b
          = st.b.set st.i.toNat (letterAt ((refill src st).cache &&& letterIdxMask)) ∧
        (loopBody src st).i = st.i - 1)) ∧
    (∀ c ∈ letterBytes.data,
      (((List.range 64).filter
          (fun g => decide (g < letterBytes.length) && decide (letterAt g = c))).length : ℚ)
        / (((List.range 64).filter (fun g => decide (g < letterBytes.length))).length : ℚ)
        = 1 / 52) := by
  have hsurj : ∀ c ∈ letterBytes.data, ∃ g, g < 52 ∧ letterAt g = c := by
    intro c hc
    obtain ⟨g, hg, hgc⟩ := List.mem_iff_getElem.mp hc
    have hg52 : g < 52 := hg
    refine ⟨g, hg52, ?_⟩
    rw [letterAt, List.getD_eq_getElem _ _ hg, hgc]
  refine ⟨by decide, by decide, by decide, letterAt_mem, letterAt_injective, hsurj, ?_, ?_⟩
  · intro src st
    obtain ⟨hb, hi⟩ := refill_b_i src st
    refine ⟨?_, ?_, ?_⟩
    · have h : (63 : Nat) = 2 ^ 6 - 1 := by norm_num
      rw [letterIdxMask_eq, h, Nat.and_pow_two_sub_one_eq_mod]
      exact Nat.mod_lt _ (by norm_num)
    · intro hg
      have hn : ¬ ((refill src st).cache &&& letterIdxMask < letterBytes.length) := by
        rw [letterBytes_length]; omega
      simp only [loopBody, shift, emit, if_neg hn]
      exact ⟨hb, hi⟩
    · intro hg
      have hp : (refill src st).cache &&& letterIdxMask < letterBytes.length := by
        rw [letterBytes_length]; exact hg
      simp only [loopBody, shift, emit, if_pos hp, hb, hi, and_self]
  · intro c hc
    have h2 : ((List.range 64).filter (fun g => decide (g < letterBytes.length))).length = 52 := by
      decide
    rw [count_letter c hc, h2]
    norm_num

/-- Witness of C3 at a concrete state: the group 63 is rejected and changes neither the buffer
nor the cursor, and the letter `Q` is the image of exactly one accepted value. -/
theorem C3_rejection_uniform_witness :
    (loopBody (fun _ => 0) ⟨[Char.ofNat 0], 0, 63, 4, 1, 6⟩).b = [Char.ofNat 0] ∧
    (loopBody (fun _ => 0) ⟨[Char.ofNat 0], 0, 63, 4, 1, 6⟩).i = 0 ∧
    (((List.range 64).filter
          (fun g => decide (g < letterBytes.length) && decide (letterAt g = 'Q'))).length : ℚ)
        / (((List.range 64).filter (fun g => decide (g < letterBytes.length))).length : ℚ)
        = 1 / 52 :=
  ⟨((C3_rejection_uniform.2.2.2.2.2.2.1 (fun _ => 0) ⟨[Char.ofNat 0], 0, 63, 4, 1, 6⟩).2.1
      (by decide)).1,
   ((C3_rejection_uniform.2.2.2.2.2.2.1 (fun _ => 0) ⟨[Char.ofNat 0], 0, 63, 4, 1, 6⟩).2.1
      (by decide)).2,
   C3_rejection_uniform.2.2.2.2.2.2.2 'Q' (by decide)⟩

/-! ### Lemmas on the stored-block codec -/

theorem toNat_ofNat_lt (n : Nat) (h : n < 256) : (UInt8.ofNat n).toNat = n :=
  UInt8.toNat_ofNat_of_lt h

theorem storedDecode_block (fuel : Nat) (chunk rest : List Byte) (hlen : chunk.length ≤ 65535) :
    storedDecode (fuel + 1) (storedBlock false chunk ++ rest)
      = (chunk ++ (storedDecode fuel rest).1, (storedDecode fuel rest).2) := by
  have h1 : (UInt8.ofNat (chunk.length % 256)).toNat = chunk.length % 256 :=
    toNat_ofNat_lt _ (by omega)
  have h2 : (UInt8.ofNat (chunk.length / 256)).toNat = chunk.length / 256 :=
    toNat_ofNat_lt _ (by omega)
  have h3 : (UInt8.ofNat ((65535 - chunk.length) % 256)).toNat = (65535 - chunk.length) % 256 :=
    toNat_ofNat_lt _ (by omega)
  have h4 : (UInt8.ofNat ((65535 - chunk.length) / 256)).toNat = (65535 - chunk.length) / 256 :=
    toNat_ofNat_lt _ (by omega)
  have hl : chunk.length % 256 + 256 * (chunk.length / 256) = chunk.length := by omega
  have hn : (65535 - chunk.length) % 256 + 256 * ((65535 - chunk.length) / 256)
      = 65535 - chunk.length := by omega
  have hz : (0 : UInt8).toNat = 0 := rfl
  have hb : storedBlock false chunk ++ rest
      = 0 :: UInt8.ofNat (chunk.length % 256) :: UInt8.ofNat (chunk.length / 256)
        :: UInt8.ofNat ((65535 - chunk.length) % 256)
        :: UInt8.ofNat ((65535 - chunk.length) / 256) :: (chunk ++ rest) := by
    simp [storedBlock]
  rw [hb]
  simp only [storedDecode, hz]
  rw [h1, h2, h3, h4, hl, hn]
  simp

theorem storedDecode_final (fuel : Nat) (rest : List Byte) :
    storedDecode (fuel + 1) (storedBlock true [] ++ rest) = ([], none) := by
  simp [storedBlock, storedDecode]

/-- The stored-block stream of `d`, closed by the final block, is read back as `d`. -/
theorem storedDecode_storedEncode :
    ∀ (fuel : Nat) (d : List Byte) (fuel2 : Nat), d.length ≤ fuel → d.length < fuel2 →
      storedDecode fuel2 (storedEncode fuel d ++ storedBlock true []) = (d, none)
  | 0, d, fuel2, h1, h2 => by
    have hd : d = [] := List.length_eq_zero.mp (by omega)
    subst hd
    obtain ⟨f, rfl⟩ : ∃ f, fuel2 = f + 1 := ⟨fuel2 - 1, by omega⟩
    simpa [storedEncode] using storedDecode_final f []
  | fuel + 1, d, fuel2, h1, h2 => by
    obtain ⟨f, rfl⟩ : ∃ f, fuel2 = f + 1 := ⟨fuel2 - 1, by omega⟩
    by_cases hd : d.length = 0
    · have hd2 : d = [] := List.length_eq_zero.mp hd
      subst hd2
      simpa [storedEncode] using storedDecode_final f []
    · rw [storedEncode, if_neg hd, List.append_assoc,
        storedDecode_block f _ _ (by rw [List.length_take]; omega),
        storedDecode_storedEncode fuel (d.drop 65535) f
          (by rw [List.length_drop]; omega) (by rw [List.length_drop]; omega)]
      simp

theorem storedEncode_length :
    ∀ (fuel : Nat) (d : List Byte), d.length ≤ fuel → d.length ≤ (storedEncode fuel d).length
  | 0, d, h => by omega
  | fuel + 1, d, h => by
    by_cases hd : d.length = 0
    · omega
    · have ih := storedEncode_length fuel (d.drop 65535) (by rw [List.length_drop]; omega)
      rw [List.length_drop] at ih
      rw [storedEncode, if_neg hd]
      simp only [storedBlock, List.length_append, List.length_cons, List.length_take]
      omega

theorem foldl_storedFlate_write (writes : List (List Byte)) (out w : List Byte) :
    writes.foldl
        (fun acc p => (acc.1 ++ (storedFlate.Write acc.2 p).1, (storedFlate.Write acc.2 p).2))
        (out, w)
      = (out, w ++ writes.flatten) := by
  induction writes generalizing out w with
  | nil => simp
  | cons p ps ih =>
    rw [List.foldl_cons]
    have : (out ++ (storedFlate.Write w p).1, (storedFlate.Write w p).2) = (out, w ++ p) := by
      simp [storedFlate]
    rw [this, ih]
    simp

/-- The stored-block instance satisfies the contract at every level in `-2..9`. -/
theorem storedFlate_roundTripsAt (level : Int) (h1 : -2 ≤ level) (h2 : level ≤ 9) :
    storedFlate.RoundTripsAt level := by
  refine ⟨[], by simp [storedFlate, h1, h2], fun writes => ?_⟩
  rw [foldl_storedFlate_write]
  simp only [List.nil_append]
  have hlen := storedEncode_length _ writes.flatten (le_refl _)
  exact storedDecode_storedEncode _ _ _ (le_refl _) (by
    show writes.flatten.length
      < (storedEncode writes.flatten.length writes.flatten ++ storedBlock true []).length + 1
    rw [List.length_append]
    omega)

/-! ### The claims on the stream codec -/

/-- C2: round trip of the stream codec.  Given the contract of `compress/flate` at the levels
`0..9` (what is written to a writer and closed is read back whole), for every byte sequence `d`
(the empty one included) and every level `L` in `0..9`: `compress(d, dest, L)` returns without
panic, appends some bytes to `dest`, and decompressing those bytes yields exactly `d`; and
`decompressByte(compressByte(d)) = d`. -/
theorem C2_round_trip (F : Flate) (hF : ∀ L : Int, 0 ≤ L → L ≤ 9 → F.RoundTripsAt L)
    (d dest dest2 : List Byte) (L : Int) (h0 : 0 ≤ L) (h9 : L ≤ 9) :
    (compress F d dest L).panicked = false ∧
    (∃ written, (compress F d dest L).dest = dest ++ written ∧
      decompress F written dest2 = dest2 ++ d) ∧
    (compressByte F d).map (decompressByte F) = some d := by
  have key : ∀ L : Int, 0 ≤ L → L ≤ 9 → ∀ dest : List Byte,
      ∃ written, compress F d dest L = { dest := dest ++ written, panicked := false } ∧
        (F.ReadAll written).1 = d := by
    intro L h0 h9 dest
    obtain ⟨w, hw, hrt⟩ := hF L h0 h9
    have h := hrt [d]
    simp only [List.foldl_cons, List.foldl_nil, List.nil_append, List.flatten_cons,
      List.flatten_nil, List.append_nil] at h
    refine ⟨(F.Write w d).1 ++ F.Close (F.Write w d).2, ?_, by rw [h]⟩
    simp [compress, hw, List.append_assoc]
  obtain ⟨written, hc, hr⟩ := key L h0 h9 dest
  obtain ⟨written9, hc9, hr9⟩ := key 9 (by decide) (by decide) []
  refine ⟨by rw [hc], ⟨written, by rw [hc], by rw [decompress, hr]⟩, ?_⟩
  simp [compressByte, hc9, decompressByte, decompress, hr9]

/-- Witness of C2: the stored-block codec, `d = "aaaaaaaaaa"`, level 9. -/
theorem C2_round_trip_witness :
    (compress storedFlate [97, 97, 97, 97, 97, 97, 97, 97, 97, 97] [] 9).panicked = false ∧
    (∃ written,
      (compress storedFlate [97, 97, 97, 97, 97, 97, 97, 97, 97, 97] [] 9).dest = [] ++ written ∧
      decompress storedFlate written [] = [] ++ [97, 97, 97, 97, 97, 97, 97, 97, 97, 97]) ∧
    (compressByte storedFlate [97, 97, 97, 97, 97, 97, 97, 97, 97, 97]).map
        (decompressByte storedFlate)
      = some [97, 97, 97, 97, 97, 97, 97, 97, 97, 97] :=
  C2_round_trip storedFlate
    (fun L h0 h9 => storedFlate_roundTripsAt L (by omega) h9)
    [97, 97, 97, 97, 97, 97, 97, 97, 97, 97] [] [] 9 (by decide) (by decide)

/-- C4, as stated, fails.  On the stored block `00 0a 00 f5 ff 61 61 61`, which announces 10
bytes and holds 3, the reader ends with an unexpected-EOF error, and `decompressByte` returns
the 3 bytes `aaa`: the very result of the successful call on the complete stream of `aaa`.
And on the compressed form of `aaaaaaaaaa` with its last byte removed the reader ends with an
error too, while `decompressByte` returns `aaaaaaaaaa`, with no sign of the truncation. -/
theorem C4_counterexample :
    (storedFlate.ReadAll [0, 10, 0, 245, 255, 97, 97, 97]).2 = some ReadError.unexpectedEOF ∧
    decompressByte storedFlate [0, 10, 0, 245, 255, 97, 97, 97] = [97, 97, 97] ∧
    (storedFlate.ReadAll [0, 3, 0, 252, 255, 97, 97, 97, 1, 0, 0, 255, 255]).2 = none ∧
    decompressByte storedFlate [0, 3, 0, 252, 255, 97, 97, 97, 1, 0, 0, 255, 255]
      = [97, 97, 97] ∧
    compressByte storedFlate [97, 97, 97, 97, 97, 97, 97, 97, 97, 97]
      = some [0, 10, 0, 245, 255, 97, 97, 97, 97, 97, 97, 97, 97, 97, 97, 1, 0, 0, 255, 255] ∧
    (storedFlate.ReadAll
      [0, 10, 0, 245, 255, 97, 97, 97, 97, 97, 97, 97, 97, 97, 97, 1, 0, 0, 255]).2
      = some ReadError.unexpectedEOF ∧
    decompressByte storedFlate
      [0, 10, 0, 245, 255, 97, 97, 97, 97, 97, 97, 97, 97, 97, 97, 1, 0, 0, 255]
      = [97, 97, 97, 97, 97, 97, 97, 97, 97, 97] := by
  decide

/-- C4, amended: `decompress` and `decompressByte` have no failure channel.  On every input,
also one on which the flate reader ends with an error, `decompress` appends to `dest` exactly
the bytes the reader delivered and `decompressByte` returns them; so two inputs from which the
reader delivers the same bytes give the same result, whether the reading ended with an error
or not. -/
theorem C4_read_error_discarded (F : Flate) (src src2 dest : List Byte)
    (h : (F.ReadAll src).1 = (F.ReadAll src2).1) :
    decompress F src dest = dest ++ (F.ReadAll src).1 ∧
    decompressByte F src = (F.ReadAll src).1 ∧
    decompress F src dest = decompress F src2 dest ∧
    decompressByte F src = decompressByte F src2 := by
  simp [decompress, decompressByte, h]

/-- Witness of the amended C4: a truncated stream and a complete one that deliver `aaa`. -/
theorem C4_read_error_discarded_witness :
    (storedFlate.ReadAll [0, 10, 0, 245, 255, 97, 97, 97]).2 = some ReadError.unexpectedEOF ∧
    (storedFlate.ReadAll [0, 3, 0, 252, 255, 97, 97, 97, 1, 0, 0, 255, 255]).2 = none ∧
    (decompress storedFlate [0, 10, 0, 245, 255, 97, 97, 97] [7]
        = [7] ++ (storedFlate.ReadAll [0, 10, 0, 245, 255, 97, 97, 97]).1 ∧
      decompressByte storedFlate [0, 10, 0, 245, 255, 97, 97, 97]
        = (storedFlate.ReadAll [0, 10, 0, 245, 255, 97, 97, 97]).1 ∧
      decompress storedFlate [0, 10, 0, 245, 255, 97, 97, 97] [7]
        = decompress storedFlate [0, 3, 0, 252, 255, 97, 97, 97, 1, 0, 0, 255, 255] [7] ∧
      decompressByte storedFlate [0, 10, 0, 245, 255, 97, 97, 97]
        = decompressByte storedFlate [0, 3, 0, 252, 255, 97, 97, 97, 1, 0, 0, 255, 255]) :=
  ⟨by decide, by decide,
    C4_read_error_discarded storedFlate [0, 10, 0, 245, 255, 97, 97, 97]
      [0, 3, 0, 252, 255, 97, 97, 97, 1, 0, 0, 255, 255] [7] (by decide)⟩

/-- C5, as stated, fails: at level 10 the writer constructor returns an error, and
`compress` ends in a panic instead of reporting it. -/
theorem C5_counterexample :
    storedFlate.NewWriter 10 = none ∧
    (compress storedFlate [97] [] 10).panicked = true :=
  ⟨rfl, by decide⟩

/-- C5, amended: for every level for which the writer constructor returns an error,
`compress` discards the error and panics on the first use of the nil writer; nothing is
written to `dest` (so the level is not clamped to a valid one). -/
theorem C5_invalid_level_panics (F : Flate) (src dest : List Byte) (level : Int)
    (h : F.NewWriter level = none) :
    compress F src dest level = { dest := dest, panicked := true } := by
  simp [compress, h]

/-- Witness of the amended C5, at level 10. -/
theorem C5_invalid_level_panics_witness :
    compress storedFlate [97] [1, 2] 10 = { dest := [1, 2], panicked := true } :=
  C5_invalid_level_panics storedFlate [97] [1, 2] 10 rfl

/-! ### The claim on the local address -/

theorem contains_192_168 (t : String) :
    (stringsContains t "192.168.1" || stringsContains t "192.168")
      = stringsContains t "192.168" := by
  by_cases h : stringsContains t "192.168.1" = true
  · have h1 : "192.168.1".data <:+: t.data := by simpa [stringsContains] using h
    have h2 : "192.168".data <:+: "192.168.1".data := by decide
    have h3 : stringsContains t "192.168" = true := by
      simpa [stringsContains] using h2.trans h1
    rw [h, h3]; rfl
  · have h1 : stringsContains t "192.168.1" = false := by simpa using h
    rw [h1]; rfl

theorem rangeAddrs_eq_find (addrs : List Addr) :
    rangeAddrs addrs "localhost"
      = pickedAddress (fun t => stringsContains t "192.168") (Except.ok addrs) := by
  induction addrs with
  | nil => rfl
  | cons a rest ih =>
    unfold pickedAddress at ih ⊢
    cases a with
    | IPAddr ip zone => simpa [rangeAddrs] using ih
    | IPNet ip mask =>
      by_cases hl : ip.IsLoopback = true
      · simpa [rangeAddrs, hl] using ih
      · have hl2 : ip.IsLoopback = false := by simpa using hl
        by_cases h4 : ip.To4 = none
        · simpa [rangeAddrs, hl2, h4] using ih
        · have h4s : ip.To4.isSome = true := by
            cases hh : ip.To4 with
            | none => exact absurd hh h4
            | some v => rfl
          by_cases hc : stringsContains ip.String "192.168" = true
          · simp [rangeAddrs, hl2, h4, h4s, hc]
          · have hc2 : stringsContains ip.String "192.168" = false := by simpa using hc
            have hc1 : stringsContains ip.String "192.168.1" = false := by
              have h := contains_192_168 ip.String
              rw [hc2] at h
              simpa using h
            simpa [rangeAddrs, hl2, h4, h4s, hc1, hc2] using ih

/-- C8, as stated, fails: `10.192.168.5` is a non-loopback IPv4 network address whose text
does not start with `192.168`, yet `GetLocalIP` returns it, where the claim has
`localhost`. -/
theorem C8_counterexample :
    GetLocalIP (Except.ok [Addr.IPNet [10, 192, 168, 5] [255, 0, 0, 0]]) = "10.192.168.5" ∧
    ¬ ("192.168".data <+: "10.192.168.5".data) ∧
    pickedAddress (fun t => decide ("192.168".data <+: t.data))
      (Except.ok [Addr.IPNet [10, 192, 168, 5] [255, 0, 0, 0]]) = "localhost" := by
  decide

/-- C8, amended: `GetLocalIP` returns the textual form of the first address in the list that
is an IP network address, is not loopback, is IPv4 and whose textual form contains `192.168`
(anywhere, not only at its start); if the enumeration fails or no address satisfies the four
conditions it returns `localhost`. -/
theorem C8_GetLocalIP_first_containing (ifaces : Except String (List Addr)) :
    GetLocalIP ifaces = pickedAddress (fun t => stringsContains t "192.168") ifaces := by
  cases ifaces with
  | error e => rfl
  | ok addrs => exact rangeAddrs_eq_find addrs

end Utils
